import Mathlib

/-!
Verification of the cortex rules engine (github.com/kolosys/cortex).

Shallow embedding of the Go sources: pure functions become Lean functions,
the mutable `EvalContext` becomes explicit state passing, fallible code
returns `Except`/`Option`.  Go `float64` is modelled by `F`, exact rationals
extended with the two infinities (NaN is outside the model: no run examined
here produces one); Go `any` values by the tagged union `GoValue`; Go error
chains (`errors.Is` / `Unwrap`) by the inductive `GoErr`.
-/

namespace Cortex

/-- Go float64, modelled as an exact rational extended with the two
infinities (`math.Inf(1)`, `math.Inf(-1)`).  NaN is not modelled. -/
inductive F where
  | negInf : F
  | fin : ℚ → F
  | posInf : F
deriving DecidableEq

/-- Go `<=` on float64 (no NaN involved). -/
def F.le : F → F → Bool
  | .negInf, _ => true
  | .fin _, .negInf => false
  | .fin a, .fin b => a ≤ b
  | .fin _, .posInf => true
  | .posInf, .posInf => true
  | .posInf, _ => false

/-- Go `<` on float64 (no NaN involved). -/
def F.lt : F → F → Bool
  | .negInf, .negInf => false
  | .negInf, _ => true
  | .fin _, .negInf => false
  | .fin a, .fin b => a < b
  | .fin _, .posInf => true
  | .posInf, _ => false

/-- Go float64 addition.  The IEEE case `+Inf + -Inf = NaN` is outside the
model and mapped to 0; it is never reached by the claims below. -/
def F.add : F → F → F
  | .fin a, .fin b => .fin (a + b)
  | .negInf, .posInf => .fin 0
  | .posInf, .negInf => .fin 0
  | .posInf, _ => .posInf
  | _, .posInf => .posInf
  | .negInf, _ => .negInf
  | _, .negInf => .negInf

/-- Go float64 multiplication.  The IEEE case `0 * Inf = NaN` is outside the
model and mapped to 0; it is never reached by the claims below. -/
def F.mul : F → F → F
  | .fin a, .fin b => .fin (a * b)
  | .posInf, .posInf => .posInf
  | .posInf, .negInf => .negInf
  | .negInf, .posInf => .negInf
  | .negInf, .negInf => .posInf
  | .posInf, .fin b => if 0 < b then .posInf else if b < 0 then .negInf else .fin 0
  | .fin a, .posInf => if 0 < a then .posInf else if a < 0 then .negInf else .fin 0
  | .negInf, .fin b => if 0 < b then .negInf else if b < 0 then .posInf else .fin 0
  | .fin a, .negInf => if 0 < a then .negInf else if a < 0 then .posInf else .fin 0

/-- Division of a float64 by an integer count (used by `Buildup.Current` for
the avg operation, where the count is at least 1). -/
def F.divInt : F → ℤ → F
  | .fin a, n => .fin (a / (n : ℚ))
  | .posInf, n => if n < 0 then .negInf else .posInf
  | .negInf, n => if n < 0 then .posInf else .negInf

/-- Finite part of a float64; the infinities are outside the arithmetic
fragment used by the allocation claims and are mapped to 0. -/
def F.toQ : F → ℚ
  | .fin q => q
  | _ => 0

/-- Go `any` restricted to the shapes the cortex code inspects: float64
(carried as `F`), the integer family (collapsed to `int`), string, bool and
nil. -/
inductive GoValue where
  | num (x : F)
  | int (n : ℤ)
  | str (s : String)
  | bool (b : Bool)
  | null
deriving DecidableEq

/-- Go `%T` of a `GoValue` (for the error texts of `toFloat64`). -/
def goTypeName : GoValue → String
  | .num _ => "float64"
  | .int _ => "int"
  | .str _ => "string"
  | .bool _ => "bool"
  | .null => "<nil>"

/-- Go error values as the cortex code builds them: sentinel errors
(`errors.New`), plain errors, `fmt.Errorf` wrappers with `%w` (the message is
the cause's message followed by a suffix), and the `RuleError` wrapper from
errors.go. -/
inductive GoErr where
  | sentinel (msg : String)
  | plain (msg : String)
  | wrapf (suffix : String) (cause : GoErr)
  | ruleErr (ruleID ruleType phase : String) (cause : GoErr)
deriving DecidableEq

/-- Sentinel `ErrValueNotFound` from errors.go. -/
def errValueNotFound : GoErr := .sentinel "cortex: value not found in context"

/-- Sentinel `ErrTypeMismatch` from errors.go. -/
def errTypeMismatch : GoErr := .sentinel "cortex: type mismatch"

/-- Sentinel `ErrInvalidRule` from errors.go. -/
def errInvalidRule : GoErr := .sentinel "cortex: invalid rule configuration"

/-- Sentinel `ErrLookupNotFound` from errors.go. -/
def errLookupNotFound : GoErr := .sentinel "cortex: lookup table not found"

/-- Sentinel `ErrKeyNotFound` from errors.go. -/
def errKeyNotFound : GoErr := .sentinel "cortex: key not found in lookup"

/-- Go `%q` of a rule id: wraps it in double quotes.  (strconv escaping of
special characters inside the id is not modelled; the ids appearing here are
plain ASCII without quotes or backslashes.) -/
def goQuote (s : String) : String := "\"" ++ s ++ "\""

/-- The `Error()` message of a `GoErr`.  The `ruleErr` arm is
`RuleError.Error` from errors.go: `cortex: rule %q (%s) %s: %v` when the
rule type is non-blank, else `cortex: rule %q %s: %v`. -/
def errMsg : GoErr → String
  | .sentinel m => m
  | .plain m => m
  | .wrapf suffix cause => errMsg cause ++ suffix
  | .ruleErr i t p cause =>
    if t ≠ "" then "cortex: rule " ++ goQuote i ++ " (" ++ t ++ ") " ++ p ++ ": " ++ errMsg cause
    else "cortex: rule " ++ goQuote i ++ " " ++ p ++ ": " ++ errMsg cause

/-- Go `errors.Unwrap`: `%w` wrappers and `RuleError.Unwrap` expose the
cause; sentinel and plain errors unwrap to nothing. -/
def unwrap : GoErr → Option GoErr
  | .sentinel _ => none
  | .plain _ => none
  | .wrapf _ cause => some cause
  | .ruleErr _ _ _ cause => some cause

/-- Go `errors.Is`: identity with the target, or `Is` of the unwrapped
cause. -/
def errorsIs : GoErr → GoErr → Bool
  | .sentinel m, target => decide (GoErr.sentinel m = target)
  | .plain m, target => decide (GoErr.plain m = target)
  | .wrapf s c, target => decide (GoErr.wrapf s c = target) || errorsIs c target
  | .ruleErr i t p c, target => decide (GoErr.ruleErr i t p c = target) || errorsIs c target

/-- The `toFloat64` conversion from context.go: the numeric families widen
to float64, everything else is a `TypeMismatch` error. -/
def toFloat64 : GoValue → Except GoErr F
  | .num x => .ok x
  | .int n => .ok (.fin (n : ℚ))
  | v => .error (.wrapf (": expected numeric, got " ++ goTypeName v) errTypeMismatch)

/-- Association-list get, modelling reads of a Go `map[string]V`. -/
def assocGet {α : Type} : List (String × α) → String → Option α
  | [], _ => none
  | (k, v) :: rest, key => if k = key then some v else assocGet rest key

/-- Association-list put, modelling writes to a Go `map[string]V`: replace
the entry when the key is present, append otherwise. -/
def assocSet {α : Type} : List (String × α) → String → α → List (String × α)
  | [], key, value => [(key, value)]
  | (k, v) :: rest, key, value =>
    if k = key then (key, value) :: rest else (k, v) :: assocSet rest key value

/-- The accumulation operations of buildup.go. -/
inductive BuildupOperation where
  | sum | min | max | avg | count | product
deriving DecidableEq

/-- The `Buildup` accumulator of buildup.go (the mutex is implicit: state is
passed explicitly here). -/
structure Buildup where
  name : String
  operation : BuildupOperation
  value : F
  count : ℤ
deriving DecidableEq

/-- `Buildup.Add` from buildup.go: increment the count, then update the
value according to the operation. -/
def Buildup.add (b : Buildup) (v : F) : Buildup :=
  let count' := b.count + 1
  match b.operation with
  | .sum => { b with count := count', value := b.value.add v }
  | .min => if count' = 1 ∨ (v.lt b.value) = true then { b with count := count', value := v }
            else { b with count := count' }
  | .max => if count' = 1 ∨ (b.value.lt v) = true then { b with count := count', value := v }
            else { b with count := count' }
  | .avg => { b with count := count', value := b.value.add v }
  | .count => { b with count := count', value := .fin (count' : ℚ) }
  | .product => if count' = 1 then { b with count := count', value := v }
                else { b with count := count', value := b.value.mul v }

/-- `Buildup.Current` from buildup.go: the running value, or value/count for
avg when at least one value was added. -/
def Buildup.current (b : Buildup) : F :=
  if b.operation = .avg ∧ 0 < b.count then b.value.divInt b.count else b.value

/-- The evaluation context of context.go: values, buildups, lookups and
metadata maps, the halt flag and its source, and the two counters.  A lookup
table is its `Get` method, `GoValue → Option GoValue` (the `Lookup`
interface of lookup.go).  The id, start time and locks are not modelled. -/
structure EvalContext where
  values : List (String × GoValue)
  buildups : List (String × Buildup)
  lookups : List (String × (GoValue → Option GoValue))
  metadata : List (String × String)
  halted : Bool
  haltedBy : String
  rulesEvaluated : ℤ
  errCount : ℤ

/-- `NewEvalContext` from context.go: empty maps, not halted, zero
counters. -/
def newEvalContext : EvalContext :=
  { values := [], buildups := [], lookups := [], metadata := []
    halted := false, haltedBy := "", rulesEvaluated := 0, errCount := 0 }

/-- `EvalContext.Get`. -/
def EvalContext.get (c : EvalContext) (key : String) : Option GoValue :=
  assocGet c.values key

/-- `EvalContext.Set`. -/
def EvalContext.set (c : EvalContext) (key : String) (v : GoValue) : EvalContext :=
  { c with values := assocSet c.values key v }

/-- `EvalContext.Delete`. -/
def EvalContext.delete (c : EvalContext) (key : String) : EvalContext :=
  { c with values := c.values.filter (fun kv => kv.1 ≠ key) }

/-- `EvalContext.Has`. -/
def EvalContext.has (c : EvalContext) (key : String) : Bool :=
  (assocGet c.values key).isSome

/-- `EvalContext.GetFloat64`: `ErrValueNotFound` when the key is missing,
else `toFloat64` of the stored value. -/
def EvalContext.getFloat64 (c : EvalContext) (key : String) : Except GoErr F :=
  match c.get key with
  | none => .error (.wrapf (": " ++ key) errValueNotFound)
  | some v => toFloat64 v

/-- `EvalContext.RegisterLookup`: bind a lookup table by name. -/
def EvalContext.registerLookup (c : EvalContext) (name : String)
    (fn : GoValue → Option GoValue) : EvalContext :=
  { c with lookups := assocSet c.lookups name fn }

/-- `EvalContext.Lookup`: `ErrLookupNotFound` for an unregistered table,
else the table's `Get` result (`none` models found = false). -/
def EvalContext.lookupIn (c : EvalContext) (table : String) (key : GoValue) :
    Except GoErr (Option GoValue) :=
  match assocGet c.lookups table with
  | none => .error (.wrapf (": " ++ table) errLookupNotFound)
  | some fn => .ok (fn key)

/-- `EvalContext.GetOrCreateBuildup`: the existing accumulator on a name
hit; otherwise a new one with the given operation and the initial value
stored directly (count 0), inserted into the context. -/
def EvalContext.getOrCreateBuildup (c : EvalContext) (key : String)
    (op : BuildupOperation) (initial : F) : Buildup × EvalContext :=
  match assocGet c.buildups key with
  | some b => (b, c)
  | none =>
    let b : Buildup := { name := key, operation := op, value := initial, count := 0 }
    (b, { c with buildups := assocSet c.buildups key b })

/-- `Buildup.Add` reached through the pointer `GetOrCreateBuildup` returned:
the stored accumulator for the key is updated in place (no-op when the key
is absent, which the callers never are). -/
def EvalContext.buildupAdd (c : EvalContext) (key : String) (v : F) : EvalContext :=
  match assocGet c.buildups key with
  | none => c
  | some b => { c with buildups := assocSet c.buildups key (b.add v) }

/-- `EvalContext.SetMetadata`. -/
def EvalContext.setMetadata (c : EvalContext) (key value : String) : EvalContext :=
  { c with metadata := assocSet c.metadata key value }

/-- `EvalContext.Halt` from context.go: sets the halt flag and writes the
caller's rule id over `haltedBy`, unconditionally. -/
def EvalContext.halt (c : EvalContext) (ruleID : String) : EvalContext :=
  { c with halted := true, haltedBy := ruleID }

/-- `EvalContext.incRulesEvaluated`. -/
def EvalContext.incRulesEvaluated (c : EvalContext) : EvalContext :=
  { c with rulesEvaluated := c.rulesEvaluated + 1 }

/-- `EvalContext.incErrors`. -/
def EvalContext.incErrors (c : EvalContext) : EvalContext :=
  { c with errCount := c.errCount + 1 }

/-- The mutating operations of the `EvalContext` API (context.go), as data:
used to state that a property survives every subsequent operation. -/
inductive CtxOp where
  | set (key : String) (v : GoValue)
  | delete (key : String)
  | registerLookup (name : String) (fn : GoValue → Option GoValue)
  | getOrCreateBuildup (key : String) (op : BuildupOperation) (initial : F)
  | buildupAdd (key : String) (v : F)
  | setMetadata (key value : String)
  | halt (ruleID : String)
  | incRulesEvaluated
  | incErrors

/-- Interpretation of one context operation. -/
def applyOp (c : EvalContext) : CtxOp → EvalContext
  | .set k v => c.set k v
  | .delete k => c.delete k
  | .registerLookup n fn => c.registerLookup n fn
  | .getOrCreateBuildup k op i => (c.getOrCreateBuildup k op i).2
  | .buildupAdd k v => c.buildupAdd k v
  | .setMetadata k v => c.setMetadata k v
  | .halt r => c.halt r
  | .incRulesEvaluated => c.incRulesEvaluated
  | .incErrors => c.incErrors

/-- Interpretation of a sequence of context operations, first to last. -/
def applyOps (c : EvalContext) (ops : List CtxOp) : EvalContext :=
  ops.foldl applyOp c

/-- A range entry from lookup.go: inclusive min, exclusive max
(`math.Inf(1)` for unbounded), and the value. -/
structure RangeEntry (V : Type) where
  min : F
  max : F
  value : V
deriving DecidableEq

/-- `RangeLookup` from lookup.go: a name and an ordered list of ranges. -/
structure RangeLookup (V : Type) where
  name : String
  ranges : List (RangeEntry V)
deriving DecidableEq

/-- The linear scan of `RangeLookup.Get`: the first entry in declaration
order with `min <= k && k < max`. -/
def rangeScan {V : Type} : List (RangeEntry V) → F → Option V
  | [], _ => none
  | r :: rest, k => if (r.min.le k && k.lt r.max) = true then some r.value else rangeScan rest k

/-- `RangeLookup.Get` from lookup.go: coerce the key to float64 (`none` on
failure), then scan the ranges in declaration order. -/
def RangeLookup.get {V : Type} (l : RangeLookup V) (key : GoValue) : Option V :=
  match toFloat64 key with
  | .error _ => none
  | .ok k => rangeScan l.ranges k

/-- An `AssignmentRule` from assignment.go (metadata beyond the id is not
needed by the claims).  A `ValueFunc` is modelled as a read of the context
producing a value or an error. -/
structure AssignmentRule where
  id : String
  target : String
  value : Option GoValue
  valueFn : Option (EvalContext → Except GoErr GoValue)

/-- `AssignmentConfig` from assignment.go. -/
structure AssignmentConfig where
  id : String
  target : String
  value : Option GoValue
  valueFn : Option (EvalContext → Except GoErr GoValue)

/-- Whether an `Except` is an `ok` (Go: `err == nil`). -/
def isOkE {α : Type} : Except GoErr α → Bool
  | .ok _ => true
  | .error _ => false

/-- `NewAssignment` from assignment.go: requires a non-empty id, a non-empty
target, and at least one of the static value and the value function; nothing
rejects supplying both. -/
def NewAssignment (cfg : AssignmentConfig) : Except GoErr AssignmentRule :=
  if cfg.id = "" then
    .error (.wrapf ": assignment rule requires ID" errInvalidRule)
  else if cfg.target = "" then
    .error (.wrapf (": assignment rule " ++ goQuote cfg.id ++ " requires target") errInvalidRule)
  else if cfg.value.isNone && cfg.valueFn.isNone then
    .error (.wrapf (": assignment rule " ++ goQuote cfg.id ++ " requires value or value function") errInvalidRule)
  else
    .ok { id := cfg.id, target := cfg.target, value := cfg.value, valueFn := cfg.valueFn }

/-- `AssignmentRule.Evaluate` from assignment.go: the value function when
present (errors wrapped in a `RuleError` with family assignment), else the
static value (Go stores nil when it too is absent); the result is written to
the target. -/
def AssignmentRule.evaluate (r : AssignmentRule) (c : EvalContext) :
    EvalContext × Option GoErr :=
  match r.valueFn with
  | some f =>
    match f c with
    | .error e => (c, some (.ruleErr r.id "assignment" "evaluate" e))
    | .ok v => (c.set r.target v, none)
  | none => (c.set r.target (r.value.getD GoValue.null), none)

/-- A `FormulaRule` from formula.go.  Both the host function and the
compiled expression are modelled as reads of the context producing a value
or an error. -/
structure FormulaRule where
  id : String
  target : String
  formula : Option (EvalContext → Except GoErr GoValue)
  compiledExpr : Option (EvalContext → Except GoErr GoValue)

/-- `FormulaRule.Evaluate` from formula.go: the function when present, else
the compiled expression, else an error; evaluation errors are wrapped in a
`RuleError` with family formula; the result is written to the target. -/
def FormulaRule.evaluate (r : FormulaRule) (c : EvalContext) :
    EvalContext × Option GoErr :=
  match (match r.formula with
         | some f => f c
         | none =>
           match r.compiledExpr with
           | some g => g c
           | none => .error (GoErr.plain "no formula or expression configured")) with
  | .error e => (c, some (.ruleErr r.id "formula" "evaluate" e))
  | .ok v => (c.set r.target v, none)

/-- A `LookupRule` from lookup.go. -/
structure LookupRule where
  id : String
  table : String
  keySource : String
  target : String
  defaultVal : GoValue
  required : Bool

/-- Go `%v` of a value (for the key-not-found error text; float rendering is
approximated by the rational's rendering). -/
def goFmtValue : GoValue → String
  | .num (.fin q) => toString q
  | .num .posInf => "+Inf"
  | .num .negInf => "-Inf"
  | .int n => toString n
  | .str s => s
  | .bool b => cond b "true" "false"
  | .null => "<nil>"

/-- `LookupRule.Evaluate` from lookup.go: fetch the key from the context
(`ErrValueNotFound` when absent), look it up in the named table
(`ErrLookupNotFound` when unregistered); when not found, error with
`ErrKeyNotFound` if required, else substitute the default; write the result
to the target. -/
def LookupRule.evaluate (r : LookupRule) (c : EvalContext) :
    EvalContext × Option GoErr :=
  match c.get r.keySource with
  | none => (c, some (.ruleErr r.id "lookup" "evaluate" (.wrapf (": " ++ r.keySource) errValueNotFound)))
  | some key =>
    match c.lookupIn r.table key with
    | .error e => (c, some (.ruleErr r.id "lookup" "evaluate" e))
    | .ok found =>
      match found with
      | some value => (c.set r.target value, none)
      | none =>
        if r.required then
          (c, some (.ruleErr r.id "lookup" "evaluate"
            (.wrapf (": " ++ goFmtValue key ++ " in table " ++ r.table) errKeyNotFound)))
        else (c.set r.target r.defaultVal, none)

/-- The allocation strategies of allocation.go. -/
inductive AllocationStrategy where
  | percentage | fixed | weighted | equal | ratio
deriving DecidableEq

/-- An allocation destination from allocation.go. -/
structure AllocationTarget where
  key : String
  amount : ℚ
deriving DecidableEq

/-- An `AllocationRule` from allocation.go.  Finite float64 arithmetic is
modelled exactly over the rationals. -/
structure AllocationRule where
  id : String
  source : String
  strategy : AllocationStrategy
  targets : List AllocationTarget
  remainder : String
  precision : ℤ

/-- Go `math.Round`: the nearest integer, halves away from zero. -/
def goRound (q : ℚ) : ℚ :=
  if q < 0 then -((⌊-q + 1/2⌋ : ℤ) : ℚ) else ((⌊q + 1/2⌋ : ℤ) : ℚ)

/-- `AllocationRule.round` from allocation.go: round to `precision` decimal
places, halves away from zero. -/
def AllocationRule.round (r : AllocationRule) (v : ℚ) : ℚ :=
  let multiplier : ℚ := (10 : ℚ) ^ r.precision
  goRound (v * multiplier) / multiplier

/-- `AllocationRule.calculate` from allocation.go: the rounded per-target
shares and the remainder `source - Σ shares`, by strategy.  Weighted and
ratio with zero total weight return zero shares and the whole source. -/
def AllocationRule.calculate (r : AllocationRule) (source : ℚ) : List ℚ × ℚ :=
  match r.strategy with
  | .percentage =>
    let allocations := r.targets.map fun t => r.round (source * t.amount / 100)
    (allocations, source - allocations.sum)
  | .fixed =>
    let allocations := r.targets.map fun t => r.round t.amount
    (allocations, source - allocations.sum)
  | .weighted =>
    let totalWeight := (r.targets.map fun t => t.amount).sum
    if totalWeight = 0 then (r.targets.map fun _ => 0, source)
    else
      let allocations := r.targets.map fun t => r.round (source * t.amount / totalWeight)
      (allocations, source - allocations.sum)
  | .equal =>
    let each := r.round (source / (r.targets.length : ℚ))
    let allocations := r.targets.map fun _ => each
    (allocations, source - allocations.sum)
  | .ratio =>
    let totalRatio := (r.targets.map fun t => t.amount).sum
    if totalRatio = 0 then (r.targets.map fun _ => 0, source)
    else
      let allocations := r.targets.map fun t => r.round (source * t.amount / totalRatio)
      (allocations, source - allocations.sum)

/-- The per-target writes of `AllocationRule.Evaluate`: each target key is
set to its share, in declaration order. -/
def setTargets : EvalContext → List AllocationTarget → List ℚ → EvalContext
  | c, [], _ => c
  | c, _, [] => c
  | c, t :: ts, a :: rest => setTargets (c.set t.key (.num (.fin a))) ts rest

/-- `AllocationRule.Evaluate` from allocation.go: read the source value
(errors wrapped with family allocation), calculate, write every share, and
write the remainder only when a remainder key is configured and the
remainder is non-zero. -/
def AllocationRule.evaluate (r : AllocationRule) (c : EvalContext) :
    EvalContext × Option GoErr :=
  match c.getFloat64 r.source with
  | .error e => (c, some (.ruleErr r.id "allocation" "evaluate" e))
  | .ok sv =>
    let res := r.calculate sv.toQ
    let c1 := setTargets c r.targets res.1
    if r.remainder ≠ "" ∧ res.2 ≠ 0 then (c1.set r.remainder (.num (.fin res.2)), none)
    else (c1, none)

/-- A `BuildupRule` from buildup.go. -/
structure BuildupRule where
  id : String
  buildup : String
  operation : BuildupOperation
  source : String
  initial : F
  target : String
deriving DecidableEq

/-- `BuildupConfig` from buildup.go. -/
structure BuildupConfig where
  id : String
  buildup : String
  operation : BuildupOperation
  source : String
  initial : F
  target : String
deriving DecidableEq

/-- `NewBuildup` from buildup.go: validates id, buildup name and source
(source optional for count), then substitutes an operation-appropriate
neutral for a zero initial value: +infinity for min, -infinity for max, 1
for product, unchanged (0) otherwise. -/
def NewBuildup (cfg : BuildupConfig) : Except GoErr BuildupRule :=
  if cfg.id = "" then
    .error (.wrapf ": buildup rule requires ID" errInvalidRule)
  else if cfg.buildup = "" then
    .error (.wrapf (": buildup rule " ++ goQuote cfg.id ++ " requires buildup name") errInvalidRule)
  else if cfg.source = "" ∧ cfg.operation ≠ .count then
    .error (.wrapf (": buildup rule " ++ goQuote cfg.id ++ " requires source (except for count)") errInvalidRule)
  else
    let initial :=
      if cfg.initial = F.fin 0 then
        match cfg.operation with
        | .min => F.posInf
        | .max => F.negInf
        | .product => F.fin 1
        | _ => cfg.initial
      else cfg.initial
    .ok { id := cfg.id, buildup := cfg.buildup, operation := cfg.operation,
          source := cfg.source, initial := initial, target := cfg.target }

/-- `BuildupRule.Evaluate` from buildup.go: the value is 1 for count, else
the source value from the context (errors wrapped with family buildup);
get-or-create the named accumulator with the rule's operation and initial,
add the value through the returned pointer, and write the current value to
the target when one is configured. -/
def BuildupRule.evaluate (r : BuildupRule) (c : EvalContext) :
    EvalContext × Option GoErr :=
  match (if r.operation = BuildupOperation.count then Except.ok (F.fin 1)
         else c.getFloat64 r.source) with
  | .error e => (c, some (.ruleErr r.id "buildup" "evaluate" e))
  | .ok value =>
    let bc := c.getOrCreateBuildup r.buildup r.operation r.initial
    let b := bc.1.add value
    let c1 : EvalContext := { bc.2 with buildups := assocSet bc.2.buildups r.buildup b }
    if r.target ≠ "" then (c1.set r.target (GoValue.num b.current), none)
    else (c1, none)

/-- The `Rule` interface of rule.go, closed over the five concrete rule
types of the package. -/
inductive CortexRule where
  | assignment (r : AssignmentRule)
  | formula (r : FormulaRule)
  | lookupRule (r : LookupRule)
  | allocation (r : AllocationRule)
  | buildup (r : BuildupRule)

/-- `Rule.ID` dispatch. -/
def ruleId : CortexRule → String
  | .assignment r => r.id
  | .formula r => r.id
  | .lookupRule r => r.id
  | .allocation r => r.id
  | .buildup r => r.id

/-- `Rule.Evaluate` dispatch: the possibly-updated context and the returned
error. -/
def ruleEval : CortexRule → EvalContext → EvalContext × Option GoErr
  | .assignment r, c => r.evaluate c
  | .formula r, c => r.evaluate c
  | .lookupRule r, c => r.evaluate c
  | .allocation r, c => r.evaluate c
  | .buildup r, c => r.evaluate c

/-- The error-handling modes of config.go. -/
inductive EvalMode where
  | failFast | collectAll | continueOnError
deriving DecidableEq

/-- The engine configuration of config.go, restricted to the fields the
sequential driver consults (timeout, metrics and the rule cap are wall-clock
or registration concerns outside this embedding). -/
structure Config where
  mode : EvalMode
  shortCircuit : Bool

/-- `DefaultConfig` from config.go: fail-fast with short-circuit on. -/
def defaultConfig : Config := { mode := .failFast, shortCircuit := true }

/-- The wrapping step of `Engine.Evaluate` (cortex.go): an error that is
already a `RuleError` is kept, any other is wrapped with the rule's id,
blank family and phase evaluate. -/
def toRuleError (id : String) (e : GoErr) : GoErr :=
  match e with
  | .ruleErr i t p c => .ruleErr i t p c
  | _ => .ruleErr id "" "evaluate" e

/-- What a run of the rule loop of `Engine.Evaluate` produces: the final
context, the collected `RuleError`s and the error returned (some only under
fail-fast). -/
structure RunOutcome where
  ctx : EvalContext
  errors : List GoErr
  err : Option GoErr

/-- The rule loop of `Engine.Evaluate` (cortex.go lines 243-284, without
the wall-clock cancellation check): break when short-circuit is on and the
context is halted; on a rule error increment the error counter, append the
wrapped error, and by mode either return (fail-fast) or continue
(collect-all, continue-on-error); on success increment the evaluated
counter. -/
def runRules (cfg : Config) : List CortexRule → EvalContext → List GoErr → RunOutcome
  | [], c, errs => ⟨c, errs, none⟩
  | r :: rest, c, errs =>
    if cfg.shortCircuit && c.halted then ⟨c, errs, none⟩
    else
      match ruleEval r c with
      | (c', some e) =>
        match cfg.mode with
        | .failFast => ⟨c'.incErrors, errs ++ [toRuleError (ruleId r) e], some e⟩
        | .collectAll => runRules cfg rest c'.incErrors (errs ++ [toRuleError (ruleId r) e])
        | .continueOnError => runRules cfg rest c'.incErrors (errs ++ [toRuleError (ruleId r) e])
      | (c', none) => runRules cfg rest c'.incRulesEvaluated errs

/-- The `Result` of result.go (reproduced in the repository's README),
without the wall-clock fields. -/
structure Result where
  success : Bool
  rulesEvaluated : ℤ
  rulesFailed : ℤ
  errors : List GoErr
  haltedBy : String
  context : EvalContext

/-- `newResult` from result.go (README lines 518-530): success exactly when
no error was collected and the context is not halted; the failure count is
the number of collected errors. -/
def newResult (c : EvalContext) (errors : List GoErr) : Result :=
  { success := errors.isEmpty && !c.halted
    rulesEvaluated := c.rulesEvaluated
    rulesFailed := (errors.length : ℤ)
    errors := errors
    haltedBy := c.haltedBy
    context := c }

/-- The `Engine` of cortex.go, restricted to what `Evaluate` reads: the
configuration, the insertion-ordered rules and the registered lookups. -/
structure Engine where
  name : String
  config : Config
  rules : List CortexRule
  lookups : List (String × (GoValue → Option GoValue))

/-- `Engine.Evaluate` from cortex.go: register the engine's lookups into the
context, run the rule loop, and package the outcome with `newResult` (the
same packaging serves the fail-fast early return and the normal return). -/
def Engine.evaluate (e : Engine) (c : EvalContext) : Result × Option GoErr :=
  let c0 := e.lookups.foldl (fun acc nl => acc.registerLookup nl.1 nl.2) c
  let o := runRules e.config e.rules c0 []
  (newResult o.ctx o.errors, o.err)

/-- A compiled `Expression` from expression.go, abstracted over its
tree-walking evaluator: `eval` is `Expression.Eval` against a `ValueGetter`
(the getter is `get(key) → (value, found)`). -/
structure Expression where
  raw : String
  eval : (String → Option GoValue) → Except GoErr GoValue

/-- `Expression.EvalBool` from expression.go: propagate an evaluation
error; otherwise a type assertion to bool, returning false with no error
when the value is not a bool. -/
def Expression.evalBool (e : Expression) (getter : String → Option GoValue) :
    Except GoErr Bool :=
  match e.eval getter with
  | .error err => .error err
  | .ok v =>
    match v with
    | .bool b => .ok b
    | _ => .ok false

/-- Whether a `GoValue` is a Go bool (the shape `result.(bool)` asserts). -/
def isBoolV : GoValue → Bool
  | .bool _ => true
  | _ => false

/-- A host formula function that always fails with the given message (the
shape used by the fail-fast and collect-all tests in engine_test.go). -/
def failFn (msg : String) : EvalContext → Except GoErr GoValue :=
  fun _ => .error (.plain msg)

/-- The failing formula rule of the fail-fast scenario (engine_test.go
`TestEngineFailFast`). -/
def ffFailRule : CortexRule :=
  .formula { id := "fail", target := "x", formula := some (failFn "intentional error"), compiledExpr := none }

/-- The assignment placed after the failing rule in the fail-fast
scenario. -/
def ffAfterRule : CortexRule :=
  .assignment { id := "after-fail", target := "y", value := some (.int 42), valueFn := none }

/-- The fail-fast engine of `TestEngineFailFast`: default config with mode
fail-fast. -/
def ffEngine : Engine :=
  { name := "test", config := { mode := .failFast, shortCircuit := true },
    rules := [ffFailRule, ffAfterRule], lookups := [] }

/-- First failing formula of the collect-all scenario
(`TestEngineCollectAll`). -/
def caFail1 : CortexRule :=
  .formula { id := "fail1", target := "x", formula := some (failFn "error 1"), compiledExpr := none }

/-- Second failing formula of the collect-all scenario. -/
def caFail2 : CortexRule :=
  .formula { id := "fail2", target := "y", formula := some (failFn "error 2"), compiledExpr := none }

/-- The succeeding assignment `z = 42` of the collect-all scenario. -/
def caOk : CortexRule :=
  .assignment { id := "success", target := "z", value := some (.int 42), valueFn := none }

/-- The collect-all engine of `TestEngineCollectAll`. -/
def caEngine : Engine :=
  { name := "test", config := { mode := .collectAll, shortCircuit := true },
    rules := [caFail1, caFail2, caOk], lookups := [] }

/-- The tax-bracket range lookup of the tests: `[0,50000) -> 0.10`,
`[50000,100000) -> 0.22`, `[100000,+inf) -> 0.35`. -/
def taxRanges : RangeLookup ℚ :=
  { name := "tax_brackets",
    ranges := [ { min := .fin 0, max := .fin 50000, value := 10/100 },
                { min := .fin 50000, max := .fin 100000, value := 22/100 },
                { min := .fin 100000, max := .posInf, value := 35/100 } ] }

/-- A weighted allocation over three equal weights with a remainder key:
splitting 100 three ways at precision 2 leaves a 0.01 rounding remainder. -/
def allocWitnessRule : AllocationRule :=
  { id := "split", source := "total", strategy := .weighted,
    targets := [ { key := "a", amount := 1 }, { key := "b", amount := 1 }, { key := "c", amount := 1 } ],
    remainder := "rem", precision := 2 }

/-- A context holding `total = 100` for the allocation witness. -/
def allocWitnessCtx : EvalContext := newEvalContext.set "total" (.num (.fin 100))

/-- A buildup config with operation min and the zero initial value, whose
constructor must substitute +infinity. -/
def buildupWitnessCfg : BuildupConfig :=
  { id := "r1", buildup := "acc", operation := .min, source := "src",
    initial := .fin 0, target := "" }

/-- A compiled expression whose evaluation yields the non-bool value 7. -/
def constExpr : Expression := { raw := "7", eval := fun _ => .ok (.int 7) }

/-- An assignment config supplying both the static value and the value
function. -/
def bothCfg : AssignmentConfig :=
  { id := "a", target := "t", value := some (.int 1), valueFn := some (fun _ => .ok (.int 2)) }

/-- An assignment config supplying neither the static value nor the value
function. -/
def noneCfg : AssignmentConfig :=
  { id := "a", target := "t", value := none, valueFn := none }

/-- Helper: no context operation resets the halt flag. -/
theorem applyOp_halted (c : EvalContext) (op : CtxOp) (h : c.halted = true) :
    (applyOp c op).halted = true := by
  cases op with
  | getOrCreateBuildup k o i =>
    simp only [applyOp, EvalContext.getOrCreateBuildup]
    split <;> simp [h]
  | buildupAdd k v =>
    simp only [applyOp, EvalContext.buildupAdd]
    split <;> simp [h]
  | _ =>
    simp [applyOp, EvalContext.set, EvalContext.delete, EvalContext.registerLookup,
      EvalContext.setMetadata, EvalContext.halt, EvalContext.incRulesEvaluated,
      EvalContext.incErrors, h]

/-- Helper: the halt flag survives any sequence of context operations. -/
theorem applyOps_halted (ops : List CtxOp) (c : EvalContext) (h : c.halted = true) :
    (applyOps c ops).halted = true := by
  induction ops generalizing c with
  | nil => exact h
  | cons op rest ih => exact ih (applyOp c op) (applyOp_halted c op h)

/-- Helper: the linear scan of `RangeLookup.Get` is the first match in
declaration order. -/
theorem rangeScan_eq_find {V : Type} (rs : List (RangeEntry V)) (k : F) :
    rangeScan rs k = (rs.find? fun r => r.min.le k && k.lt r.max).map RangeEntry.value := by
  induction rs with
  | nil => rfl
  | cons r rest ih =>
    by_cases hc : (r.min.le k && k.lt r.max) = true
    · simp [rangeScan, List.find?_cons, hc]
    · simp [rangeScan, List.find?_cons, hc, ih]

/-- Helper: a map to zero sums to zero. -/
theorem sum_map_zero (l : List AllocationTarget) : (l.map fun _ => (0 : ℚ)).sum = 0 := by
  induction l with
  | nil => rfl
  | cons t ts ih => simp [ih]

/-- Helper: writing allocation shares does not touch the evaluated-rules
counter. -/
theorem setTargets_rulesEvaluated (ts : List AllocationTarget) (as' : List ℚ)
    (c : EvalContext) : (setTargets c ts as').rulesEvaluated = c.rulesEvaluated := by
  induction ts generalizing as' c with
  | nil => cases as' <;> rfl
  | cons t rest ih =>
    cases as' with
    | nil => rfl
    | cons a arest => simpa [setTargets, EvalContext.set] using ih arest _

/-- Helper: get-or-create of a buildup does not touch the evaluated-rules
counter. -/
theorem getOrCreate_rulesEvaluated (c : EvalContext) (k : String)
    (op : BuildupOperation) (i : F) :
    ((c.getOrCreateBuildup k op i).2).rulesEvaluated = c.rulesEvaluated := by
  simp only [EvalContext.getOrCreateBuildup]
  split <;> rfl

/-- Helper: no rule's `Evaluate` touches the evaluated-rules counter (the
driver alone increments it). -/
theorem ruleEval_rulesEvaluated (r : CortexRule) (c : EvalContext) :
    ((ruleEval r c).1).rulesEvaluated = c.rulesEvaluated := by
  cases r with
  | assignment a =>
    simp only [ruleEval, AssignmentRule.evaluate]
    split
    · split <;> rfl
    · rfl
  | formula f =>
    simp only [ruleEval, FormulaRule.evaluate]
    split <;> rfl
  | lookupRule l =>
    simp only [ruleEval, LookupRule.evaluate]
    split
    · rfl
    · split
      · rfl
      · split
        · rfl
        · split <;> rfl
  | allocation a =>
    simp only [ruleEval, AllocationRule.evaluate]
    split
    · rfl
    · split
      · simp [EvalContext.set, setTargets_rulesEvaluated]
      · simp [setTargets_rulesEvaluated]
  | buildup b =>
    simp only [ruleEval, BuildupRule.evaluate]
    split
    · rfl
    · split
      · simp [EvalContext.set, getOrCreate_rulesEvaluated]
      · simp [getOrCreate_rulesEvaluated]

/-- Helper: a halted context with short-circuit on makes the rule loop stop
at once. -/
theorem runRules_break (cfg : Config) (rules : List CortexRule) (c : EvalContext)
    (errs : List GoErr) (h : (cfg.shortCircuit && c.halted) = true) :
    runRules cfg rules c errs = ⟨c, errs, none⟩ := by
  cases rules with
  | nil => rfl
  | cons r rest => simp [runRules, h]

/-- Helper: the rule loop over a concatenation runs the first part, and the
second only when the first returned no error. -/
theorem runRules_append (cfg : Config) (xs ys : List CortexRule) (c : EvalContext)
    (errs : List GoErr) :
    runRules cfg (xs ++ ys) c errs =
      (let o := runRules cfg xs c errs
       match o.err with
       | none => runRules cfg ys o.ctx o.errors
       | some _ => o) := by
  induction xs generalizing c errs with
  | nil => simp [runRules]
  | cons r rest ih =>
    by_cases hb : (cfg.shortCircuit && c.halted) = true
    · simp [runRules, hb, runRules_break cfg ys c errs hb]
    · rcases hr : ruleEval r c with ⟨c', eo⟩
      cases eo with
      | none => simpa [runRules, hb, hr] using ih c'.incRulesEvaluated errs
      | some e =>
        cases hm : cfg.mode with
        | failFast => simp [runRules, hb, hr, hm]
        | collectAll =>
          simpa [runRules, hb, hr, hm]
            using ih c'.incErrors (errs ++ [toRuleError (ruleId r) e])
        | continueOnError =>
          simpa [runRules, hb, hr, hm]
            using ih c'.incErrors (errs ++ [toRuleError (ruleId r) e])

/-- C1 (amended): once `Halt` has been called, `IsHalted` stays true through
every subsequent context operation; but `HaltedBy` is overwritten by every
`Halt` call, so it records the most recent halter, not the first (a second
`Halt` with a different rule id replaces the first caller's id). -/
theorem halt_sticky_and_last_halter_wins (c : EvalContext) (r : String)
    (ops : List CtxOp) :
    (applyOps (c.halt r) ops).halted = true
    ∧ (c.halt r).haltedBy = r
    ∧ (∀ r2 : String, ((c.halt r).halt r2).haltedBy = r2) :=
  ⟨applyOps_halted ops (c.halt r) rfl, rfl, fun _ => rfl⟩

/-- C1 counterexample: after `Halt "a"` then `Halt "b"`, `HaltedBy` is not
the first caller's rule id — the claimed first-halter-wins semantics fails
on the code. -/
theorem halt_first_halter_counterexample :
    ((newEvalContext.halt "a").halt "b").haltedBy ≠ "a" := by decide

/-- C2: `RangeLookup.Get` coerces the key to float64 and returns the value
of the first entry in declaration order with `min <= k < max` (so a key
equal to an entry's max falls to a later entry); when the key does not
coerce it returns nothing (zero, false). -/
theorem rangeLookup_get_first_match {V : Type} (l : RangeLookup V) (key : GoValue) :
    (∀ k : F, toFloat64 key = .ok k →
      l.get key = (l.ranges.find? fun r => r.min.le k && k.lt r.max).map RangeEntry.value)
    ∧ (∀ e : GoErr, toFloat64 key = .error e → l.get key = none) := by
  constructor
  · intro k hk
    unfold RangeLookup.get
    rw [hk]
    exact rangeScan_eq_find l.ranges k
  · intro e he
    unfold RangeLookup.get
    rw [he]

/-- C2 witness: in the bracket table `[0,50000) [50000,100000) [100000,∞)`
the key 50000 does not match the first interval and hits the second, through
the first-match characterisation. -/
theorem rangeLookup_get_first_match_witness :
    taxRanges.get (GoValue.num (F.fin 50000)) = some (22/100 : ℚ)
    ∧ taxRanges.get (GoValue.int 50000)
        = ((taxRanges.ranges.find? fun r => r.min.le (F.fin 50000) && (F.fin 50000).lt r.max).map
            RangeEntry.value) := by
  constructor
  · rw [(rangeLookup_get_first_match taxRanges (GoValue.num (F.fin 50000))).1 (F.fin 50000) rfl]
    norm_num [taxRanges, List.find?, F.le, F.lt]
  · exact (rangeLookup_get_first_match taxRanges (GoValue.int 50000)).1 (F.fin 50000)
      (by norm_num [toFloat64])

/-- C7 (amended): the textual form of a `RuleError` is
`cortex: rule "<id>" (<family>) <phase>: <cause>` — with the `cortex: `
prefix the claim omitted — and without the parenthesised family when it is
blank; unwrapping yields the cause, so `errors.Is` sentinel checks succeed
through the wrapper. -/
theorem ruleError_text_and_unwrap (i t p : String) (c target : GoErr) :
    errMsg (GoErr.ruleErr i t p c)
      = (if t ≠ "" then "cortex: rule " ++ goQuote i ++ " (" ++ t ++ ") " ++ p ++ ": " ++ errMsg c
         else "cortex: rule " ++ goQuote i ++ " " ++ p ++ ": " ++ errMsg c)
    ∧ unwrap (GoErr.ruleErr i t p c) = some c
    ∧ (errorsIs c target = true → errorsIs (GoErr.ruleErr i t p c) target = true) :=
  ⟨rfl, rfl, fun h => by simp [errorsIs, h]⟩

/-- C7 counterexample: the textual form is not exactly
`rule "<id>" (<family>) <phase>: <cause>` — the code prepends `cortex: `. -/
theorem ruleError_text_counterexample :
    errMsg (GoErr.ruleErr "r1" "formula" "evaluate" (GoErr.plain "boom"))
      ≠ "rule \"r1\" (formula) evaluate: boom" := by decide

/-- C7 witness: a concrete wrapped sentinel renders with the prefix and is
still identified by `errors.Is`. -/
theorem ruleError_text_and_unwrap_witness :
    errMsg (GoErr.ruleErr "r1" "formula" "evaluate" (GoErr.wrapf ": boom" errInvalidRule))
      = "cortex: rule \"r1\" (formula) evaluate: cortex: invalid rule configuration: boom"
    ∧ errorsIs (GoErr.ruleErr "r1" "formula" "evaluate" (GoErr.wrapf ": boom" errInvalidRule))
        errInvalidRule = true := by
  have h := ruleError_text_and_unwrap "r1" "formula" "evaluate"
    (GoErr.wrapf ": boom" errInvalidRule) errInvalidRule
  exact ⟨by rw [h.1]; decide, h.2.2 (by decide)⟩

/-- C9: `newResult` sets `Success` exactly when no error was collected and
the context is not halted (a halted run with zero errors is unsuccessful),
and `RulesFailed` equals the number of collected errors. -/
theorem newResult_success_iff (c : EvalContext) (errors : List GoErr) :
    ((newResult c errors).success = true ↔ errors = [] ∧ c.halted = false)
    ∧ (newResult c errors).rulesFailed = (errors.length : ℤ)
    ∧ (newResult c errors).errors = errors := by
  refine ⟨?_, rfl, rfl⟩
  simp [newResult, List.isEmpty_iff]

/-- C10: `Expression.EvalBool` returns false with no error when the
underlying evaluation succeeds with a non-bool value, the bool itself when
it succeeds with a bool, and propagates the error when the underlying
evaluation fails. -/
theorem evalBool_nonbool_false (e : Expression) (g : String → Option GoValue) :
    (∀ v : GoValue, e.eval g = .ok v → isBoolV v = false → e.evalBool g = .ok false)
    ∧ (∀ b : Bool, e.eval g = .ok (GoValue.bool b) → e.evalBool g = .ok b)
    ∧ (∀ err : GoErr, e.eval g = .error err → e.evalBool g = .error err) := by
  refine ⟨?_, ?_, ?_⟩
  · intro v hv hb
    unfold Expression.evalBool
    rw [hv]
    cases v <;> simp_all [isBoolV]
  · intro b hb
    unfold Expression.evalBool
    rw [hb]
  · intro err he
    unfold Expression.evalBool
    rw [he]

/-- C10 witness: an expression evaluating to the non-bool 7 yields
`(false, nil)` from `EvalBool`. -/
theorem evalBool_nonbool_false_witness :
    constExpr.evalBool (fun _ => none) = Except.ok false :=
  (evalBool_nonbool_false constExpr (fun _ => none)).1 (GoValue.int 7) rfl rfl

/-- C5: for the percentage, weighted, equal and ratio strategies the
remainder produced by `calculate` is exactly the source minus the sum of the
rounded shares — so shares plus remainder conserve the source — and
`Evaluate` writes the remainder to the remainder key exactly when that key
is configured and the remainder is non-zero. -/
theorem allocation_conservation (r : AllocationRule) (S : ℚ) (c : EvalContext)
    (hstrat : r.strategy = .percentage ∨ r.strategy = .weighted
      ∨ r.strategy = .equal ∨ r.strategy = .ratio) :
    (r.calculate S).1.sum + (r.calculate S).2 = S
    ∧ (c.getFloat64 r.source = .ok (F.fin S) →
        r.evaluate c =
          (if r.remainder ≠ "" ∧ (r.calculate S).2 ≠ 0 then
            ((setTargets c r.targets (r.calculate S).1).set r.remainder
              (.num (.fin (r.calculate S).2)), none)
           else (setTargets c r.targets (r.calculate S).1, none))) := by
  constructor
  · rcases hstrat with h | h | h | h <;> simp only [AllocationRule.calculate, h]
    · ring
    · split
      · simp [sum_map_zero]
      · ring
    · ring
    · split
      · simp [sum_map_zero]
      · ring
  · intro hget
    simp only [AllocationRule.evaluate, hget, F.toQ]

/-- C5 witness: splitting 100 over three equal weights at precision 2 gives
shares summing to 99.99 and remainder 0.01, which is written to the
configured remainder key. -/
theorem allocation_conservation_witness :
    (allocWitnessRule.calculate 100).1.sum + (allocWitnessRule.calculate 100).2 = 100
    ∧ (allocWitnessRule.calculate 100).2 = 1/100
    ∧ ((allocWitnessRule.evaluate allocWitnessCtx).1).get "rem"
        = some (GoValue.num (F.fin (1/100))) := by
  have h := allocation_conservation allocWitnessRule 100 allocWitnessCtx
    (Or.inr (Or.inl rfl))
  have hcalc : allocWitnessRule.calculate 100 = ([3333/100, 3333/100, 3333/100], 1/100) := by
    simp only [allocWitnessRule, AllocationRule.calculate, AllocationRule.round, goRound]
    norm_num [Int.floor_eq_iff]
  refine ⟨h.1, by rw [hcalc], ?_⟩
  rw [h.2 rfl, hcalc, if_pos ⟨by decide, by norm_num⟩]
  rfl

/-- C6: with a zero initial value `NewBuildup` substitutes the
operation-appropriate neutral (+infinity for min, -infinity for max, 1 for
product, 0 otherwise), whereas `GetOrCreateBuildup` stores the initial it is
passed exactly as given on a miss, and on a name hit returns the existing
accumulator unchanged, ignoring the operation and initial arguments. -/
theorem buildup_initial_defaulting (cfg : BuildupConfig)
    (h0 : cfg.initial = F.fin 0) (h1 : cfg.id ≠ "") (h2 : cfg.buildup ≠ "")
    (h3 : cfg.source ≠ "" ∨ cfg.operation = BuildupOperation.count) :
    NewBuildup cfg = Except.ok
      { id := cfg.id, buildup := cfg.buildup, operation := cfg.operation,
        source := cfg.source,
        initial := match cfg.operation with
                   | .min => F.posInf
                   | .max => F.negInf
                   | .product => F.fin 1
                   | _ => F.fin 0,
        target := cfg.target }
    ∧ (∀ (c : EvalContext) (key : String) (op : BuildupOperation) (init : F),
        assocGet c.buildups key = none →
        c.getOrCreateBuildup key op init
          = (⟨key, op, init, 0⟩,
             { c with buildups := assocSet c.buildups key ⟨key, op, init, 0⟩ }))
    ∧ (∀ (c : EvalContext) (key : String) (b : Buildup) (op : BuildupOperation) (init : F),
        assocGet c.buildups key = some b →
        c.getOrCreateBuildup key op init = (b, c)) := by
  refine ⟨?_, ?_, ?_⟩
  · rcases h3 with hs | hc
    · cases hop : cfg.operation <;> simp [NewBuildup, h0, h1, h2, hs, hop]
    · simp [NewBuildup, h0, h1, h2, hc]
  · intro c key op init hmiss
    simp only [EvalContext.getOrCreateBuildup, hmiss]
  · intro c key b op init hhit
    simp only [EvalContext.getOrCreateBuildup, hhit]

/-- C6 witness: a min buildup config with zero initial gets +infinity from
the constructor; a fresh accumulator created with initial 5 stores 5
undefaulted; a second get with a different operation and initial returns the
first accumulator unchanged. -/
theorem buildup_initial_defaulting_witness :
    NewBuildup buildupWitnessCfg = Except.ok
      { id := "r1", buildup := "acc", operation := .min, source := "src",
        initial := F.posInf, target := "" }
    ∧ (newEvalContext.getOrCreateBuildup "m" BuildupOperation.min (F.fin 5)).1.value
        = F.fin 5
    ∧ ((newEvalContext.getOrCreateBuildup "m" BuildupOperation.min (F.fin 5)).2.getOrCreateBuildup
          "m" BuildupOperation.max (F.fin 9)).1
        = { name := "m", operation := BuildupOperation.min, value := F.fin 5, count := 0 } := by
  have h := buildup_initial_defaulting buildupWitnessCfg rfl
    (by decide) (by decide) (Or.inl (by decide))
  have h2 := h.2.1 newEvalContext "m" BuildupOperation.min (F.fin 5) rfl
  refine ⟨h.1, by rw [h2], ?_⟩
  have h3 := h.2.2 (newEvalContext.getOrCreateBuildup "m" BuildupOperation.min (F.fin 5)).2
    "m" ⟨"m", BuildupOperation.min, F.fin 5, 0⟩
    BuildupOperation.max (F.fin 9) (by rw [h2]; rfl)
  rw [h3]

/-- C8 (amended): `NewAssignment` succeeds exactly when the config supplies
a non-empty id, a non-empty target and at least one of the static value and
the value function — a config supplying both is accepted, not rejected —
and every rejection wraps `ErrInvalidRule`. -/
theorem newAssignment_validation (cfg : AssignmentConfig) :
    (isOkE (NewAssignment cfg) = true
      ↔ cfg.id ≠ "" ∧ cfg.target ≠ "" ∧ (cfg.value.isSome = true ∨ cfg.valueFn.isSome = true))
    ∧ (∀ e : GoErr, NewAssignment cfg = .error e → errorsIs e errInvalidRule = true) := by
  constructor
  · unfold NewAssignment
    split
    · next hid => simp [isOkE, hid]
    · next hid =>
      split
      · next htgt => simp [isOkE, hid, htgt]
      · next htgt =>
        split
        · next hnone =>
          simp only [Bool.and_eq_true, Option.isNone_iff_eq_none] at hnone
          simp [isOkE, hid, htgt, hnone.1, hnone.2]
        · next hnone =>
          simp only [Bool.and_eq_true, Option.isNone_iff_eq_none, not_and_or] at hnone
          rcases hnone with h | h
          · simp [isOkE, hid, htgt, Option.isSome_iff_ne_none, h]
          · simp [isOkE, hid, htgt, Option.isSome_iff_ne_none, h]
  · intro e he
    unfold NewAssignment at he
    split at he
    · injection he with hh
      subst hh
      simp [errorsIs, errInvalidRule]
    · split at he
      · injection he with hh
        subst hh
        simp [errorsIs, errInvalidRule]
      · split at he
        · injection he with hh
          subst hh
          simp [errorsIs, errInvalidRule]
        · exact Except.noConfusion he

/-- C8 counterexample: a config supplying both the static value and the
value function is accepted by `NewAssignment`, not rejected. -/
theorem newAssignment_both_accepted : isOkE (NewAssignment bothCfg) = true := rfl

/-- C8 witness: a config supplying neither value is rejected and the error
unwraps to the `ErrInvalidRule` sentinel. -/
theorem newAssignment_validation_witness :
    isOkE (NewAssignment noneCfg) = false
    ∧ errorsIs (GoErr.wrapf (": assignment rule \"a\" requires value or value function")
        errInvalidRule) errInvalidRule = true :=
  ⟨rfl, (newAssignment_validation noneCfg).2 _ rfl⟩

/-- C3: under fail-fast, when the rules before position i complete cleanly
and the rule at position i fails, `Engine.Evaluate` returns the error with
the partial result, the run is identical whatever rules stand after
position i (they are never executed, so their targets never appear), and
the failing rule is not counted in `RulesEvaluated`. -/
theorem evaluate_failFast_stops (nm : String) (cfg : Config)
    (pre post : List CortexRule) (f : CortexRule)
    (ctx0 ctx1 ctx2 : EvalContext) (e : GoErr)
    (hmode : cfg.mode = EvalMode.failFast)
    (hpre : runRules cfg pre ctx0 [] = ⟨ctx1, [], none⟩)
    (hhalt : cfg.shortCircuit = true → ctx1.halted = false)
    (hfail : ruleEval f ctx1 = (ctx2, some e)) :
    Engine.evaluate ⟨nm, cfg, pre ++ f :: post, []⟩ ctx0
      = (newResult ctx2.incErrors [toRuleError (ruleId f) e], some e)
    ∧ Engine.evaluate ⟨nm, cfg, pre ++ f :: post, []⟩ ctx0
      = Engine.evaluate ⟨nm, cfg, pre ++ [f], []⟩ ctx0
    ∧ (Engine.evaluate ⟨nm, cfg, pre ++ f :: post, []⟩ ctx0).1.rulesEvaluated
      = ctx1.rulesEvaluated
    ∧ ∀ k : String,
        (Engine.evaluate ⟨nm, cfg, pre ++ f :: post, []⟩ ctx0).1.context.has k
          = ctx2.has k := by
  have hb : (cfg.shortCircuit && ctx1.halted) = false := by
    cases hsc : cfg.shortCircuit
    · rfl
    · simp [hhalt hsc]
  have heval : ∀ rest : List CortexRule,
      Engine.evaluate ⟨nm, cfg, pre ++ f :: rest, []⟩ ctx0
        = (newResult ctx2.incErrors [toRuleError (ruleId f) e], some e) := by
    intro rest
    have hrun : runRules cfg (pre ++ f :: rest) ctx0 []
        = ⟨ctx2.incErrors, [toRuleError (ruleId f) e], some e⟩ := by
      rw [runRules_append, hpre]
      simp [runRules, hb, hfail, hmode]
    simp only [Engine.evaluate, List.foldl]
    rw [hrun]
  refine ⟨heval post, (heval post).trans (heval []).symm, ?_, ?_⟩
  · rw [heval post]
    have hre := ruleEval_rulesEvaluated f ctx1
    rw [hfail] at hre
    exact hre
  · intro k
    rw [heval post]
    rfl

/-- C3 witness: the fail-fast scenario of the tests — a failing formula
followed by the assignment `y = 42` — returns the error, leaves `y` absent
from the context and counts zero rules evaluated. -/
theorem evaluate_failFast_stops_witness :
    (Engine.evaluate ffEngine newEvalContext).1.context.has "y" = false
    ∧ (Engine.evaluate ffEngine newEvalContext).1.rulesEvaluated = 0
    ∧ (Engine.evaluate ffEngine newEvalContext).2
        = some (GoErr.ruleErr "fail" "formula" "evaluate" (GoErr.plain "intentional error")) := by
  have h := evaluate_failFast_stops "test" ffEngine.config [] [ffAfterRule] ffFailRule
    newEvalContext newEvalContext newEvalContext
    (GoErr.ruleErr "fail" "formula" "evaluate" (GoErr.plain "intentional error"))
    rfl rfl (fun _ => rfl) rfl
  have h1 : Engine.evaluate ffEngine newEvalContext
      = (newResult newEvalContext.incErrors
          [toRuleError "fail" (GoErr.ruleErr "fail" "formula" "evaluate" (GoErr.plain "intentional error"))],
         some (GoErr.ruleErr "fail" "formula" "evaluate" (GoErr.plain "intentional error"))) := h.1
  rw [h1]
  exact ⟨rfl, rfl, rfl⟩

/-- C4: under collect-all a failing rule has its wrapped error appended and
evaluation continues with the next rule without counting the failed rule as
evaluated; in the concrete scenario of two failing formulas followed by the
assignment `z = 42` the result holds exactly 2 errors, `z` is set to 42,
and `RulesEvaluated` equals 1. -/
theorem evaluate_collectAll_continues (cfg : Config) (f : CortexRule)
    (rest : List CortexRule) (c c' : EvalContext) (errs : List GoErr) (e : GoErr)
    (hmode : cfg.mode = EvalMode.collectAll)
    (hhalt : cfg.shortCircuit = true → c.halted = false)
    (hfail : ruleEval f c = (c', some e)) :
    runRules cfg (f :: rest) c errs
      = runRules cfg rest c'.incErrors (errs ++ [toRuleError (ruleId f) e])
    ∧ c'.incErrors.rulesEvaluated = c.rulesEvaluated
    ∧ (Engine.evaluate caEngine newEvalContext).1.errors.length = 2
    ∧ (Engine.evaluate caEngine newEvalContext).1.context.get "z" = some (GoValue.int 42)
    ∧ (Engine.evaluate caEngine newEvalContext).1.rulesEvaluated = 1 := by
  have hb : (cfg.shortCircuit && c.halted) = false := by
    cases hsc : cfg.shortCircuit
    · rfl
    · simp [hhalt hsc]
  refine ⟨by simp [runRules, hb, hfail, hmode], ?_, rfl, rfl, rfl⟩
  have hre := ruleEval_rulesEvaluated f c
  rw [hfail] at hre
  exact hre

/-- C4 witness: the first failing formula of the collect-all scenario steps
to the rest of the rule list with its error appended and the counter
untouched. -/
theorem evaluate_collectAll_continues_witness :
    runRules caEngine.config [caFail1, caFail2, caOk] newEvalContext []
      = runRules caEngine.config [caFail2, caOk] newEvalContext.incErrors
          [GoErr.ruleErr "fail1" "formula" "evaluate" (GoErr.plain "error 1")]
    ∧ (Engine.evaluate caEngine newEvalContext).1.errors.length = 2
    ∧ (Engine.evaluate caEngine newEvalContext).1.context.get "z" = some (GoValue.int 42)
    ∧ (Engine.evaluate caEngine newEvalContext).1.rulesEvaluated = 1 := by
  have h := evaluate_collectAll_continues caEngine.config caFail1 [caFail2, caOk]
    newEvalContext newEvalContext []
    (GoErr.ruleErr "fail1" "formula" "evaluate" (GoErr.plain "error 1"))
    rfl (fun _ => rfl) rfl
  exact ⟨h.1, h.2.2.1, h.2.2.2.1, h.2.2.2.2⟩

end Cortex
